import Mathlib

set_option maxRecDepth 10000

/-!
Shallow embedding of `multi_account_twitter_bot.py` and proofs about its
specification claims.  Pure string manipulation (the text normalizer
`clean_text`), the account-pool merge (`load_accounts`), the profile rotator
(`select_profiles`), the post fetcher (`fetch_tweets`), the commentary
generator (`fetch_perplexity_analysis`), and the dispatch loops
(`post_reply_with_account`, `fetch_and_reply`, `queue_reply`) are translated
into executable Lean functions.  External effects (the scraping backend, the
completion backend, the posting backend, randomness, the file system) are
passed in as explicit parameters or state, mirroring exactly the calls the
Python code makes.
-/

namespace MultiBot

/-! ## Python string primitives -/

/-- Characters matched by Python's regex class `\s` on `str` and stripped by
`str.strip()`: the ASCII whitespace characters together with the Unicode
whitespace code points. -/
def isPySpace (c : Char) : Bool :=
  decide (c.toNat = 0x20 ∨ c.toNat = 0x9 ∨ c.toNat = 0xa ∨ c.toNat = 0xd ∨
    c.toNat = 0xb ∨ c.toNat = 0xc ∨ (0x1c ≤ c.toNat ∧ c.toNat ≤ 0x1f) ∨
    c.toNat = 0x85 ∨ c.toNat = 0xa0 ∨ c.toNat = 0x1680 ∨
    (0x2000 ≤ c.toNat ∧ c.toNat ≤ 0x200a) ∨ c.toNat = 0x2028 ∨
    c.toNat = 0x2029 ∨ c.toNat = 0x202f ∨ c.toNat = 0x205f ∨ c.toNat = 0x3000)

/-- Python `str.strip()`: drop leading and trailing whitespace. -/
def pyStrip (l : List Char) : List Char :=
  ((l.dropWhile isPySpace).reverse.dropWhile isPySpace).reverse

/-- Model of `re.sub(r'\s+', ' ', text)`, structurally: the flag records
whether the previous character belonged to a whitespace run, so that every
maximal run of whitespace characters is replaced by a single space. -/
def collapseWsAux : Bool → List Char → List Char
  | _, [] => []
  | prevSpace, c :: cs =>
    if isPySpace c then
      if prevSpace then collapseWsAux true cs
      else ' ' :: collapseWsAux true cs
    else c :: collapseWsAux false cs

def collapseWs (l : List Char) : List Char := collapseWsAux false l

/-- Match the regex atom `\[\d+\]` at the head of the character list,
returning the remainder after the closing bracket.  (`\d` is modelled as the
ASCII digits, which is what the citation markers produced by the completion
backend contain.) -/
def matchCite : List Char → Option (List Char)
  | [] => none
  | c :: rest =>
    if c = '[' then
      match rest.dropWhile Char.isDigit with
      | ']' :: r' => if (rest.takeWhile Char.isDigit).isEmpty then none else some r'
      | _ => none
    else none

/-- Match the regex `\[\d+\](?:\[\d+\])*` at the head of the list: one
bracketed integer, then greedily as many further bracketed integers as
possible.  Each successful `matchCite` consumes at least three characters,
so a fuel of the list length always suffices. -/
def matchChainFuel : Nat → List Char → Option (List Char)
  | 0, _ => none
  | fuel + 1, l =>
    match matchCite l with
    | none => none
    | some r =>
      match matchChainFuel fuel r with
      | some r' => some r'
      | none => some r

def matchChain (l : List Char) : Option (List Char) :=
  matchChainFuel l.length l

/-- True when some position of the list starts a citation marker `[d+]`. -/
def containsCite : List Char → Bool
  | [] => false
  | c :: cs => (matchCite (c :: cs)).isSome || containsCite cs

/-- Model of `re.sub(r'\[\d+\](?:\[\d+\])*', '', text)`: scan left to right,
deleting each leftmost maximal chain of bracketed integers.  A deleted chain
consumes at least three characters while one unit of fuel is spent, so a
fuel of the list length always suffices. -/
def stripCitationsFuel : Nat → List Char → List Char
  | 0, l => l
  | _ + 1, [] => []
  | fuel + 1, c :: cs =>
    match matchChain (c :: cs) with
    | some rest => stripCitationsFuel fuel rest
    | none => c :: stripCitationsFuel fuel cs

def stripCitations (l : List Char) : List Char :=
  stripCitationsFuel l.length l

/-- Python `s.rfind(c)` helper: the greatest index of `c` in the list,
offset by `i`. -/
def rfindAux : List Char → Char → Nat → Option Nat
  | [], _, _ => none
  | x :: xs, c, i =>
    match rfindAux xs c (i + 1) with
    | some j => some j
    | none => if x = c then some i else none

/-- Python `s.rfind(c)`: highest index of `c`, or `-1` when absent. -/
def pyRfind (l : List Char) (c : Char) : Int :=
  match rfindAux l c 0 with
  | some i => (i : Int)
  | none => -1

/-- Python slice `s[:k]` for a possibly negative bound `k`. -/
def pySlice (l : List Char) (k : Int) : List Char :=
  if k < 0 then l.take (l.length - (-k).toNat) else l.take k.toNat

/-- The sentence-terminator set of `clean_text`. -/
def stopChars : List Char := ['।', '.', '!', '?']

/-! ## Text normalizer (`clean_text`, lines 126-140) -/

/-- The citation-stripped, whitespace-collapsed, trimmed form of the input:
lines 129-130 of the source (the two `re.sub` passes and `.strip()`). -/
def cleanedForm (l : List Char) : List Char :=
  pyStrip (collapseWs (stripCitations l))

/-- `last_stop`: the maximum over the four `trimmed.rfind(...)` calls. -/
def lastStopIdx (trimmed : List Char) : Int :=
  max (pyRfind trimmed '।')
    (max (pyRfind trimmed '.') (max (pyRfind trimmed '!') (pyRfind trimmed '?')))

/-- The cut of the truncation branch: at the last sentence stop (inclusive)
when it lies beyond offset 200, otherwise at the last space
(`trimmed[:trimmed.rfind(' ')]`, which drops one character when no space
exists, since Python's `rfind` returns `-1` then). -/
def cutAt (trimmed : List Char) : List Char :=
  if 200 < lastStopIdx trimmed then pySlice trimmed (lastStopIdx trimmed + 1)
  else pySlice trimmed (pyRfind trimmed ' ')

/-- `if text[-1] not in {...}: text += "..."`.  Python would raise
`IndexError` on an empty `text`; that case is unreachable (the cut is never
empty) and modelled as the identity. -/
def ellipsize (cut : List Char) : List Char :=
  match cut.getLast? with
  | some c => if c ∈ stopChars then cut else cut ++ ['.', '.', '.']
  | none => cut

/-- The `len(text) > 273` truncation block of `clean_text`. -/
def truncate273 (t : List Char) : List Char :=
  if 273 < t.length then ellipsize (cutAt (t.take 273)) else t

/-- The text normalizer `clean_text` of the source, on character lists:
the falsy-input guard, the two `re.sub` passes with `.strip()`
(`cleanedForm`), the truncation block, and the final `.strip()`. -/
def cleanTextL (l : List Char) : List Char :=
  if l = [] then [] else pyStrip (truncate273 (cleanedForm l))

/-- The text normalizer `clean_text` on strings. -/
def clean_text (s : String) : String := ⟨cleanTextL s.data⟩

/-! ## Account pool (`load_accounts`, lines 49-76) -/

/-- One account credential record: the five keys of both the config-file
records and the environment-override records built by `load_accounts`. -/
structure Account where
  api_key : Option String
  api_secret : Option String
  access_token : Option String
  access_secret : Option String
  bearer_token : Option String
deriving DecidableEq

/-- Python `acc.update(env_acc)`: an override record always carries all five
keys (possibly with `None` values), so every field of the config record is
overwritten by the override's field. -/
def updateAcc (a e : Account) : Account :=
  { a with
    api_key := e.api_key
    api_secret := e.api_secret
    access_token := e.access_token
    access_secret := e.access_secret
    bearer_token := e.bearer_token }

/-- The inner `for acc in accounts: ... else: accounts.append(env_acc)` loop
of the merge, for a single override record: update the first config record
whose `api_key` matches, otherwise append the override. -/
def mergeEnvAcc : List Account → Account → List Account
  | [], e => [e]
  | a :: rest, e =>
    if a.api_key = e.api_key then updateAcc a e :: rest
    else a :: mergeEnvAcc rest e

/-- `load_accounts` after reading the config file and probing the
environment: fold the override records into the config records, then cap the
pool at 10 entries (`return accounts[:10]`). -/
def load_accounts (cfg env_accounts : List Account) : List Account :=
  (env_accounts.foldl mergeEnvAcc cfg).take 10

/-- The number of pool entries whose primary credential is `some k`. -/
def keyCount (l : List Account) (k : String) : Nat :=
  (l.filter fun a => decide (a.api_key = some k)).length

/-! ## Configured constants (lines 34-44) -/

def TWEETS_PER_PROFILE : Nat := 1

def PROFILES_PER_RUN : Nat := 30

def REPLIES_TO_PROCESS : Nat := 10

def RECENT_MEMORY : Nat := 20

/-! ## Profile rotator (`select_profiles`, lines 173-184) -/

/-- The candidate pool of `select_profiles`: profiles not in the recent
memory, falling back to the full profile list when fewer than
`PROFILES_PER_RUN` remain. -/
def selectCandidates (all_profiles recent : List String) : List String :=
  let candidates := all_profiles.filter fun p => decide (p ∉ recent)
  if candidates.length < PROFILES_PER_RUN then all_profiles else candidates

/-- `num_to_select = min(PROFILES_PER_RUN, len(candidates))`. -/
def numToSelect (all_profiles recent : List String) : Nat :=
  min PROFILES_PER_RUN (selectCandidates all_profiles recent).length

/-- The guarantee of `random.sample(candidates, num_to_select)`: the drawn
list has exactly `num_to_select` elements taken without replacement from
`candidates`, i.e. it is a permutation of a sublist of `candidates`. -/
def validDraw (all_profiles recent sel : List String) : Prop :=
  sel.length = numToSelect all_profiles recent ∧
  sel.Subperm (selectCandidates all_profiles recent)

/-- `select_profiles` with the profile file contents, the persisted recent
memory and the random draw passed explicitly: returns the selected sample
and the new persisted recent memory
(`recent = (selected + recent)[:RECENT_MEMORY]`). -/
def select_profiles (all_profiles recent sel : List String) :
    List String × List String :=
  (sel, (sel ++ recent).take RECENT_MEMORY)

/-! ## Post fetcher (`fetch_tweets`, lines 187-225) -/

/-- One item of the scraping backend's result stream with the fields
`fetch_tweets` reads.  The two optional text fields model
`item.get("postText")` and `item.get("text")`; the timestamp is the numeric
ms-Unix value the code sorts by. -/
structure FetchItem where
  profileUrl : String
  postId : String
  postText : Option String
  text : Option String
  timestamp : Int
deriving DecidableEq

/-- `item.get("postText") or item.get("text") or ""`: Python's falsy
fallback chain over the two text fields. -/
def itemText (it : FetchItem) : String :=
  match it.postText with
  | some s =>
    if s = "" then
      match it.text with
      | some t => t
      | none => ""
    else s
  | none =>
    match it.text with
    | some t => t
    | none => ""

/-- The `all_tweets` dictionary phase of `fetch_tweets`, flattened: items
with empty text are discarded (`continue`), and with `TWEETS_PER_PROFILE`
equal to `1` exactly the first non-empty item of each profile is kept, in
order of first appearance (Python dicts preserve insertion order). -/
def retainPosts : List FetchItem → List String → List FetchItem
  | [], _ => []
  | it :: its, seen =>
    if itemText it = "" then retainPosts its seen
    else if it.profileUrl ∈ seen then retainPosts its seen
    else it :: retainPosts its (it.profileUrl :: seen)

/-- The comparison of `fetched_tweets.sort(key=lambda x: x["timestamp"],
reverse=True)`: `a` may precede `b` when its timestamp is at least `b`'s. -/
def tsGE (a b : FetchItem) : Prop := b.timestamp ≤ a.timestamp

instance : DecidableRel tsGE := fun a b =>
  inferInstanceAs (Decidable (b.timestamp ≤ a.timestamp))

instance : IsTotal FetchItem tsGE := ⟨fun a b => le_total b.timestamp a.timestamp⟩

instance : IsTrans FetchItem tsGE := ⟨fun _ _ _ h1 h2 => le_trans h2 h1⟩

/-- `fetch_tweets` after the backend call: build `all_tweets` (discard empty
text, keep the first post of each profile), flatten, sort by timestamp
descending (Python's sort is stable; modelled by the stable
`insertionSort`), and keep the first `REPLIES_TO_PROCESS` posts. -/
def fetch_tweets (items : List FetchItem) : List FetchItem :=
  ((retainPosts items []).insertionSort tsGE).take REPLIES_TO_PROCESS

/-! ## Commentary generator (`fetch_perplexity_analysis`, lines 228-255) -/

/-- The outcome of the `requests.post` call to the completion backend, as
the `try` block observes it: a transport exception, or an HTTP status code
together with the extracted completion content (`none` when the response
body lacks the expected JSON fields, which raises inside the `try` and is
caught). -/
inductive PerpResponse where
  | exn : PerpResponse
  | http : Nat → Option String → PerpResponse
deriving DecidableEq

/-- The user prompt of the request payload: the post text is truncated to
500 characters (`tweet_text[:500]`) before being embedded. -/
def perpPrompt (tweet_text : String) : String :=
  "(YOU ARE A NO FILTER ANALYST SO NOW) \"give me only critical analysis of \\\"" ++
    (⟨tweet_text.data.take 500⟩ : String) ++
    "\\\" , in less than 260 characters in hindi, no headings, no character no. mention\""

/-- `fetch_perplexity_analysis` with the API key and the backend's response
passed explicitly.  Empty input, a falsy key, a transport error, a non-200
status and a malformed body all yield `""`; a 200 response yields
`clean_text` of the stripped completion content. -/
def fetch_perplexity_analysis (tweet_text : String) (apiKey : Option String)
    (resp : PerpResponse) : String :=
  if tweet_text = "" then ""
  else
    match apiKey with
    | none => ""
    | some key =>
      if key = "" then ""
      else
        match resp with
        | .exn => ""
        | .http status content =>
          if status ≠ 200 then ""
          else
            match content with
            | none => ""
            | some body => clean_text ⟨pyStrip body.data⟩

/-! ## Reply dispatch (`post_reply_with_account`, lines 275-315) -/

/-- The posting backend (tweepy), as `post_reply_with_account` invokes it:
`simple_upload` returns a media id or raises, `create_tweet` returns the new
tweet id or raises.  `none` models a raised exception. -/
structure Backend where
  uploadResult : String → Option Nat
  createResult : String → String → Option String

/-- One observable call to the posting backend. -/
inductive BackendCall where
  | upload : String → BackendCall
  | createTweet (accountName text : String) (mediaCount : Nat) (inReplyTo : String) :
      BackendCall
deriving DecidableEq

/-- One run-log record as `log_action("reply_sent", ...)` appends it.  The
wall-clock timestamp field is external and omitted; the media field holds
the selected image path (`os.path.basename` is an external path
operation). -/
structure LogEntry where
  account : String
  tweet_id : String
  reply_id : String
  media : Option String
  text : String
deriving DecidableEq

/-- The detail record of `log_action("reply_sent", ...)`, including the
`reply_text[:100] + "..."` truncation. -/
def mkLogEntry (accountName tweetId replyId : String) (media : Option String)
    (replyText : String) : LogEntry :=
  ⟨accountName, tweetId, replyId, media,
    ⟨replyText.data.take 100 ++ ['.', '.', '.']⟩⟩

/-- `post_reply_with_account`.  `imagePath` is the value of
`get_random_image()`: `none` when media attachment is off or no image is
available.  Returns the success flag, the backend calls made in order, and
the run log after the call.  Mirroring the source: the empty-reply guard
returns `False` before the `try`; the media upload happens inside the `try`
before the `DRY_RUN` short-circuit; `log_action` runs only on the real
(non-dry) publish path; any backend exception yields `False`. -/
def post_reply_with_account (be : Backend) (dryRun : Bool) (imagePath : Option String)
    (tweet_id reply_text account_name : String) (logs : List LogEntry) :
    Bool × List BackendCall × List LogEntry :=
  if reply_text = "" then (false, [], logs)
  else
    match imagePath with
    | some path =>
      match be.uploadResult path with
      | none => (false, [.upload path], logs)
      | some _ =>
        if dryRun then (true, [.upload path], logs)
        else
          match be.createResult reply_text tweet_id with
          | none =>
            (false, [.upload path, .createTweet account_name reply_text 1 tweet_id], logs)
          | some rid =>
            (true, [.upload path, .createTweet account_name reply_text 1 tweet_id],
              logs ++ [mkLogEntry account_name tweet_id rid (some path) reply_text])
    | none =>
      if dryRun then (true, [], logs)
      else
        match be.createResult reply_text tweet_id with
        | none => (false, [.createTweet account_name reply_text 0 tweet_id], logs)
        | some rid =>
          (true, [.createTweet account_name reply_text 0 tweet_id],
            logs ++ [mkLogEntry account_name tweet_id rid none reply_text])

/-! ## Dispatch loops (`fetch_and_reply` lines 318-344, `queue_reply`
lines 346-375) -/

/-- One enriched post as the dispatch loops see it. -/
structure ReplyTask where
  id : String
  text : String
  profile : String
  reply_text : String
deriving DecidableEq

/-- `clients[i]["name"]` is `"Account_{i+1}"`. -/
def accountName (i : Nat) : String := "Account_" ++ toString (i + 1)

/-- One non-skipped iteration of a dispatch loop: the sequence position, the
round-robin account index (`idx % len(clients)`), the backend calls of its
`post_reply_with_account` invocation and the success flag.  Each recorded
attempt is preceded by exactly one randomized delay; a skipped pair produces
no record, being `continue`d before the delay and the publish call. -/
structure Attempt where
  idx : Nat
  account : Nat
  calls : List BackendCall
  ok : Bool
deriving DecidableEq

/-- The dispatch loop shared by `fetch_and_reply` and `queue_reply`:
enumerate from position `idx`, skip pairs with empty commentary, otherwise
pick `clients[idx % n]`, wait the randomized delay, publish, and count
successes.  `image idx` is the image drawn by `get_random_image()` at that
iteration; the run log is threaded through. -/
def dispatchLoop (be : Backend) (dryRun : Bool) (image : Nat → Option String) (n : Nat) :
    List ReplyTask → Nat → List LogEntry → List Attempt × Nat × List LogEntry
  | [], _, logs => ([], 0, logs)
  | t :: ts, idx, logs =>
    if t.reply_text = "" then dispatchLoop be dryRun image n ts (idx + 1) logs
    else
      let step :=
        post_reply_with_account be dryRun (image idx) t.id t.reply_text
          (accountName (idx % n)) logs
      let rest := dispatchLoop be dryRun image n ts (idx + 1) step.2.2
      (⟨idx, idx % n, step.2.1, step.1⟩ :: rest.1,
        (if step.1 then 1 else 0) + rest.2.1, rest.2.2)

/-- `generate_replies_parallel`: each post is annotated in place with its
own generated commentary; `gen` maps a post's text to the commentary the
generator produced for it (results are joined back per post reference, so
completion order is irrelevant). -/
def annotateReplies (gen : String → String) (ts : List ReplyTask) : List ReplyTask :=
  ts.map fun t => { t with reply_text := gen t.text }

/-- The dispatch phase of `fetch_and_reply`: annotate every fetched post
with its commentary, then dispatch all of them from position 0. -/
def fetch_and_reply (be : Backend) (dryRun : Bool) (image : Nat → Option String)
    (n : Nat) (gen : String → String) (fetched : List ReplyTask)
    (logs : List LogEntry) : List Attempt × Nat × List LogEntry :=
  dispatchLoop be dryRun image n (annotateReplies gen fetched) 0 logs

/-- One queued post record of the pending-reply queue file. -/
structure QItem where
  id : String
  text : String
deriving DecidableEq

/-- The persisted JSON files `queue_reply` touches: the pending-reply queue
(a mapping from profile to queued posts, in key order) and the run log. -/
structure Files where
  reply_queue : List (String × List QItem)
  bot_logs : List LogEntry
deriving DecidableEq

/-- Flattening of the queue mapping: `{**tweet, "profile": profile}` for
each queued post of each profile. -/
def flattenQueue (queue : List (String × List QItem)) : List ReplyTask :=
  queue.flatMap fun pt => pt.2.map fun t => ⟨t.id, t.text, pt.1, ""⟩

/-- `queue_reply`: read the queue file; an empty queue returns immediately;
otherwise flatten, shuffle (the shuffled order is passed in explicitly),
generate commentary for every flattened item, and dispatch only the first
`len(clients)` items (`queued_tweets[:len(clients)]`), threading the run
log.  No statement of the function writes the queue file. -/
def queue_reply (be : Backend) (dryRun : Bool) (image : Nat → Option String)
    (n : Nat) (gen : String → String) (shuffled : List ReplyTask)
    (files : Files) : List Attempt × Nat × Files :=
  if files.reply_queue = [] then ([], 0, files)
  else
    let queued := annotateReplies gen shuffled
    let r := dispatchLoop be dryRun image n (queued.take n) 0 files.bot_logs
    (r.1, r.2.1, { files with bot_logs := r.2.2 })

/-! ## Specification predicates and concrete instances for the claims -/

/-- C2 (amended): the output of the normalizer on an over-long cleaned input
is at most 275 characters (272 retained plus the three-character ellipsis)
and ends in a sentence terminator (the ellipsis itself ends in `'.'`). -/
def C2Spec (s : String) : Prop :=
  (clean_text s).length ≤ 275 ∧
  ∃ c ∈ stopChars, (clean_text s).data.getLast? = some c

/-- Counterexample input for C2: 272 letters, a space, one letter.  Cleaned
length 274 forces truncation; the cut at the last space keeps 272
characters and the ellipsis brings the output to 275. -/
def c2CexStr : String := ⟨List.replicate 272 'a' ++ [' ', 'b']⟩

/-- Witness input for C2: 280 letters with no space and no stop. -/
def c2WitStr : String := ⟨List.replicate 280 'a'⟩

/-- Witness input for C9. -/
def c9WitStr : String := "  many   spaces\t and [not a citation] here  "

/-- C1 (amended): in dry-run mode a pair with non-empty commentary returns
success; with no media selected no backend call at all is made, and with a
selected image whose upload succeeds only the upload call is made — reply
creation never happens.  The run log is untouched either way. -/
def C1Spec (be : Backend) (tweet_id reply_text account_name : String)
    (logs : List LogEntry) : Prop :=
  post_reply_with_account be true none tweet_id reply_text account_name logs =
      (true, [], logs) ∧
  ∀ path mid, be.uploadResult path = some mid →
    post_reply_with_account be true (some path) tweet_id reply_text account_name logs =
      (true, [.upload path], logs)

/-- A posting backend whose upload and publish calls always succeed. -/
def beOk : Backend := ⟨fun _ => some 1, fun _ _ => some "900"⟩

/-- C3 (amended): the fetcher returns exactly `REPLIES_TO_PROCESS` posts,
strictly descending by timestamp, pairwise-distinct profiles, all retained,
and every retained post left out is older than every returned post. -/
def C3Spec (items : List FetchItem) : Prop :=
  (fetch_tweets items).length = REPLIES_TO_PROCESS ∧
  (fetch_tweets items).Pairwise (fun a b => b.timestamp < a.timestamp) ∧
  (fetch_tweets items).Pairwise (fun a b => a.profileUrl ≠ b.profileUrl) ∧
  (∀ x ∈ fetch_tweets items, x ∈ retainPosts items []) ∧
  ∀ y ∈ retainPosts items [], y ∉ fetch_tweets items →
    ∀ x ∈ fetch_tweets items, y.timestamp < x.timestamp

/-- Abbreviation for building backend result items in concrete instances. -/
def c3Item (p id : String) (ts : Int) (txt : Option String) : FetchItem :=
  ⟨p, id, txt, none, ts⟩

/-- Counterexample input for C3: items with pairwise-distinct timestamps
spanning ten profiles, but the item of profile `p10` has empty text. -/
def c3CexItems : List FetchItem :=
  [c3Item "p1" "1" 101 (some "a1"), c3Item "p2" "2" 102 (some "a2"),
   c3Item "p3" "3" 103 (some "a3"), c3Item "p4" "4" 104 (some "a4"),
   c3Item "p5" "5" 105 (some "a5"), c3Item "p6" "6" 106 (some "a6"),
   c3Item "p7" "7" 107 (some "a7"), c3Item "p8" "8" 108 (some "a8"),
   c3Item "p9" "9" 109 (some "a9"), c3Item "p10" "10" 110 none]

/-- Witness input for C3: twelve items over eleven profiles — one item with
empty text (both text fields falsy) and one second item for profile `q1`,
so exactly the ten other profiles are retained. -/
def c3WitItems : List FetchItem :=
  [c3Item "q1" "1" 15 (some "b1"), c3Item "q2" "2" 3 (some "b2"),
   c3Item "q1" "1b" 99 (some "dup"), c3Item "q3" "3" 27 (some "b3"),
   c3Item "q4" "4" 9 (some "b4"), c3Item "q5" "5" 41 (some "b5"),
   c3Item "qDead" "x" 77 (some ""), c3Item "q6" "6" 8 (some "b6"),
   c3Item "q7" "7" 22 (some "b7"), c3Item "q8" "8" 30 (some "b8"),
   c3Item "q9" "9" 1 (some "b9"), c3Item "q10" "10" 19 (some "b10")]

/-- C4 (amended): on a duplicate-free profile list of at least
`PROFILES_PER_RUN` entries with empty recent memory, a valid random draw
has exactly `PROFILES_PER_RUN` distinct elements of the list, and the
persisted memory is the draw itself, newest first, truncated to
`RECENT_MEMORY`. -/
def C4Spec (all_profiles sel : List String) : Prop :=
  (select_profiles all_profiles [] sel).1.length = PROFILES_PER_RUN ∧
  (select_profiles all_profiles [] sel).1.Nodup ∧
  (∀ p ∈ (select_profiles all_profiles [] sel).1, p ∈ all_profiles) ∧
  (select_profiles all_profiles [] sel).2 = sel.take RECENT_MEMORY

/-- Counterexample input for C4: thirty identical profile entries. -/
def repA : List String := List.replicate PROFILES_PER_RUN "a"

/-- Witness input for C4: thirty pairwise-distinct profile names. -/
def p30 : List String := (List.range PROFILES_PER_RUN).map fun i => "p" ++ toString i

/-- C5 (amended): the pool is the merged list capped at 10 preserving
order; when the config list holds exactly one record with the override's
key and at most 10 records, the pool holds exactly that record, updated to
carry all of the override's secrets; an override with no matching key is
appended. -/
def C5Spec (cfg : List Account) (e : Account) (k : String) : Prop :=
  load_accounts cfg [e] = (mergeEnvAcc cfg e).take 10 ∧
  (keyCount cfg k = 1 ∧ cfg.length ≤ 10 →
    (load_accounts cfg [e]).filter (fun a => decide (a.api_key = some k)) = [e] ∧
    (load_accounts cfg [e]).length = cfg.length) ∧
  (keyCount cfg k = 0 → mergeEnvAcc cfg e = cfg ++ [e])

/-- A config record with a primary key and a secondary secret. -/
def mkAcct (k sec : String) : Account := ⟨some k, some sec, none, none, none⟩

/-- Counterexample config for C5, part one: two records share key `K1`. -/
def c5CfgDup : List Account := [mkAcct "K1" "old1", mkAcct "K1" "old2"]

/-- Counterexample config for C5, part two: eleven records with the `K1`
record last, beyond the 10-entry cap. -/
def c5Cfg11 : List Account :=
  ((List.range 10).map fun i => mkAcct ("A" ++ toString i) "s") ++ [mkAcct "K1" "old"]

/-- The environment-override record used in the C5 instances. -/
def c5Env : Account := ⟨some "K1", some "new", some "tok", some "sec", some "btok"⟩

/-- Witness config for C5. -/
def c5CfgWit : List Account := [mkAcct "K0" "s0", mkAcct "K1" "old"]

/-- C7: in the dispatch loop of `fetch_and_reply`, each recorded attempt
uses account `idx % n`; the attempts are exactly the positions whose
generated commentary is non-empty (skipped pairs produce no delay, no
publish call and no record, yet later pairs keep their positions); and the
success counter equals the number of successful attempts. -/
def C7Spec (be : Backend) (dryRun : Bool) (image : Nat → Option String) (n : Nat)
    (gen : String → String) (fetched : List ReplyTask) (logs : List LogEntry) : Prop :=
  (∀ a ∈ (fetch_and_reply be dryRun image n gen fetched logs).1,
    a.account = a.idx % n) ∧
  ((fetch_and_reply be dryRun image n gen fetched logs).1.map Attempt.idx =
    (((annotateReplies gen fetched).enum.filter
      fun p => decide (p.2.reply_text ≠ "")).map Prod.fst)) ∧
  (fetch_and_reply be dryRun image n gen fetched logs).2.1 =
    ((fetch_and_reply be dryRun image n gen fetched logs).1.filter Attempt.ok).length

/-- No media selected at any loop iteration. -/
def noImage : Nat → Option String := fun _ => none

/-- Witness commentary generator for C7: empty commentary for post `x2`. -/
def genWit : String → String := fun t => if t = "x2" then "" else "c-" ++ t

/-- Witness post sequence for C7. -/
def tasksWit : List ReplyTask :=
  [⟨"t1", "x1", "p1", ""⟩, ⟨"t2", "x2", "p2", ""⟩, ⟨"t3", "x3", "p3", ""⟩,
   ⟨"t4", "x4", "p4", ""⟩]

/-- C8: after a `queue_reply` run the queue file is untouched; at most
`n` (pool-size) items produce attempts, never more than the queue holds;
every attempt sits at a position below `n`; and the success count is
bounded by the attempts. -/
def C8Spec (be : Backend) (dryRun : Bool) (image : Nat → Option String) (n : Nat)
    (gen : String → String) (shuffled : List ReplyTask) (files : Files) : Prop :=
  (queue_reply be dryRun image n gen shuffled files).2.2.reply_queue =
      files.reply_queue ∧
  (queue_reply be dryRun image n gen shuffled files).1.length ≤ n ∧
  (queue_reply be dryRun image n gen shuffled files).1.length ≤
    (flattenQueue files.reply_queue).length ∧
  (∀ a ∈ (queue_reply be dryRun image n gen shuffled files).1, a.idx < n) ∧
  (queue_reply be dryRun image n gen shuffled files).2.1 ≤
    (queue_reply be dryRun image n gen shuffled files).1.length

/-- Witness queue file for C8: three pending items over two profiles. -/
def queueWit : List (String × List QItem) :=
  [("p1", [⟨"q1", "a"⟩, ⟨"q2", "b"⟩]), ("p2", [⟨"q3", "c"⟩])]

/-- Witness file state for C8. -/
def filesWit : Files := ⟨queueWit, []⟩

/-- A shuffle of `flattenQueue queueWit`. -/
def shuffledWit : List ReplyTask :=
  [⟨"q3", "c", "p2", ""⟩, ⟨"q1", "a", "p1", ""⟩, ⟨"q2", "b", "p1", ""⟩]

/-- Witness commentary generator for C8. -/
def genC8 : String → String := fun t => "r-" ++ t

end MultiBot

namespace MultiBot

/-! ## Library-style helper lemmas about the Python string primitives -/

theorem dropWhile_head_false (p : Char → Bool) :
    ∀ l : List Char, l.dropWhile p = [] ∨
      ∃ c t', l.dropWhile p = c :: t' ∧ p c = false := by
  intro l
  induction l with
  | nil => left; rfl
  | cons a l ih =>
    rw [List.dropWhile_cons]
    by_cases h : p a
    · simpa [h] using ih
    · right
      exact ⟨a, l, by simp [h], by simp [h]⟩

theorem dropWhile_ne_nil_getLast? (p : Char → Bool) :
    ∀ l : List Char, l.dropWhile p ≠ [] → (l.dropWhile p).getLast? = l.getLast? := by
  intro l
  induction l with
  | nil => intro h; exact absurd rfl h
  | cons a l ih =>
    intro h
    rw [List.dropWhile_cons] at h ⊢
    by_cases ha : p a
    · simp only [ha, if_true] at h ⊢
      rw [ih h]
      cases l with
      | nil => exact absurd (by simp) h
      | cons b t => rw [List.getLast?_cons_cons]
    · simp [ha]

theorem dropWhile_eq_nil_of_getLast {p : Char → Bool} {l : List Char} {c : Char}
    (hl : l.getLast? = some c) (hc : p c = false) : l.dropWhile p ≠ [] := by
  intro h
  have hmem : c ∈ l := by
    rw [List.getLast?_eq_getElem? l] at hl
    exact List.getElem?_mem hl
  have := (List.dropWhile_eq_nil_iff.mp h) c hmem
  rw [hc] at this
  exact Bool.false_ne_true this

theorem pyStrip_length_le (l : List Char) : (pyStrip l).length ≤ l.length := by
  unfold pyStrip
  calc ((l.dropWhile isPySpace).reverse.dropWhile isPySpace).reverse.length
      = ((l.dropWhile isPySpace).reverse.dropWhile isPySpace).length := by
        rw [List.length_reverse]
    _ ≤ (l.dropWhile isPySpace).reverse.length :=
        ((List.reverse (l.dropWhile isPySpace)).dropWhile_sublist isPySpace).length_le
    _ = (l.dropWhile isPySpace).length := by rw [List.length_reverse]
    _ ≤ l.length := (l.dropWhile_sublist isPySpace).length_le

theorem pyStrip_head_false (l : List Char) :
    pyStrip l = [] ∨ ∃ c t', pyStrip l = c :: t' ∧ isPySpace c = false := by
  unfold pyStrip
  set y := l.dropWhile isPySpace with hy
  have hyhead := dropWhile_head_false isPySpace l
  rcases dropWhile_head_false isPySpace y.reverse with h | ⟨c, t', hct, hc⟩
  · left; rw [h]; rfl
  · by_cases hz : y.reverse.dropWhile isPySpace = []
    · left; rw [hz]; rfl
    · have hlast : (y.reverse.dropWhile isPySpace).getLast? = y.reverse.getLast? :=
        dropWhile_ne_nil_getLast? isPySpace y.reverse hz
      rcases hyhead with h0 | ⟨c0, t0, hct0, hc0⟩
      · rw [← hy] at h0
        rw [h0] at hct
        simp at hct
      · right
        rw [← hy] at hct0
        have hrev : y.reverse.getLast? = some c0 := by
          rw [List.getLast?_reverse, hct0]
          rfl
        rw [hrev] at hlast
        have hne : (y.reverse.dropWhile isPySpace).reverse ≠ [] := by
          simpa using hz
        obtain ⟨c1, t1, hc1⟩ := List.exists_cons_of_ne_nil hne
        refine ⟨c1, t1, hc1, ?_⟩
        have : (y.reverse.dropWhile isPySpace).reverse.head? = some c1 := by
          rw [hc1]; rfl
        rw [List.head?_reverse, hlast] at this
        have : c0 = c1 := by simpa using this
        rw [← this]
        exact hc0

theorem pyStrip_of_getLast {l : List Char} {c : Char}
    (hl : l.getLast? = some c) (hc : isPySpace c = false) :
    pyStrip l = l.dropWhile isPySpace := by
  unfold pyStrip
  set y := l.dropWhile isPySpace with hy
  have hyne : y ≠ [] := dropWhile_eq_nil_of_getLast hl hc
  have hylast : y.getLast? = l.getLast? := dropWhile_ne_nil_getLast? isPySpace l hyne
  have hhead : y.reverse.head? = some c := by
    rw [List.head?_reverse, hylast, hl]
  obtain ⟨c1, t1, hc1⟩ := List.exists_cons_of_ne_nil (by simpa using hyne :
    y.reverse ≠ [])
  have hcc : c1 = c := by
    rw [hc1] at hhead
    simpa using hhead
  subst hcc
  rw [hc1, List.dropWhile_cons]
  have : isPySpace c1 = false := hc
  rw [this]
  simp only [Bool.false_eq_true, if_false]
  rw [← hc1, List.reverse_reverse]

theorem pyStrip_getLast {l : List Char} {c : Char}
    (hl : l.getLast? = some c) (hc : isPySpace c = false) :
    (pyStrip l).getLast? = some c := by
  rw [pyStrip_of_getLast hl hc]
  rw [dropWhile_ne_nil_getLast? isPySpace l (dropWhile_eq_nil_of_getLast hl hc)]
  exact hl

theorem pyStrip_idem (l : List Char) : pyStrip (pyStrip l) = pyStrip l := by
  rcases pyStrip_head_false l with h | ⟨c, t', hct, hc⟩
  · rw [h]; rfl
  · by_cases hlast : ∃ d, (pyStrip l).getLast? = some d ∧ isPySpace d = false
    · obtain ⟨d, hd, hdns⟩ := hlast
      rw [pyStrip_of_getLast hd hdns, hct, List.dropWhile_cons, hc]
      simp only [Bool.false_eq_true, if_false]
    · exfalso
      apply hlast
      have hne : pyStrip l ≠ [] := by rw [hct]; simp
      -- the last element of `pyStrip l` is non-space by construction
      unfold pyStrip at hne ⊢
      rcases dropWhile_head_false isPySpace (l.dropWhile isPySpace).reverse with h0 |
        ⟨d, t0, hd0, hdns⟩
      · rw [h0] at hne
        simp at hne
      · refine ⟨d, ?_, hdns⟩
        rw [List.getLast?_reverse, hd0]
        rfl

/-! ## Helper lemmas: citation stripping and whitespace collapsing -/

theorem matchChainFuel_none {l : List Char} (h : matchCite l = none) :
    ∀ m, matchChainFuel m l = none := by
  intro m
  cases m with
  | zero => rfl
  | succ m => rw [matchChainFuel, h]

theorem stripCitationsFuel_id :
    ∀ (fuel : Nat) (l : List Char), l.length ≤ fuel → containsCite l = false →
      stripCitationsFuel fuel l = l := by
  intro fuel
  induction fuel with
  | zero => intro l _ _; rfl
  | succ fuel ih =>
    intro l hlen hc
    cases l with
    | nil => rfl
    | cons c cs =>
      rw [containsCite] at hc
      have hcite : matchCite (c :: cs) = none := by
        cases hm : matchCite (c :: cs) with
        | none => rfl
        | some r => rw [hm] at hc; simp at hc
      have hcs : containsCite cs = false := by
        rw [hcite] at hc
        simpa using hc
      rw [stripCitationsFuel]
      rw [show matchChain (c :: cs) = none from matchChainFuel_none hcite _]
      show c :: stripCitationsFuel fuel cs = c :: cs
      rw [ih cs (by simpa using Nat.le_of_succ_le_succ hlen) hcs]

theorem stripCitations_of_not_containsCite {l : List Char}
    (h : containsCite l = false) : stripCitations l = l :=
  stripCitationsFuel_id l.length l (Nat.le_refl _) h

theorem collapseWsAux_length_le :
    ∀ (b : Bool) (l : List Char), (collapseWsAux b l).length ≤ l.length := by
  intro b l
  induction l generalizing b with
  | nil => simp [collapseWsAux]
  | cons c cs ih =>
    rw [collapseWsAux]
    by_cases h : isPySpace c
    · rw [if_pos h]
      cases b with
      | true =>
        simp only [if_true, List.length_cons]
        exact Nat.le_succ_of_le (ih true)
      | false =>
        simp only [Bool.false_eq_true, if_false, List.length_cons]
        exact Nat.succ_le_succ (ih true)
    · rw [if_neg h]
      simp only [List.length_cons]
      exact Nat.succ_le_succ (ih false)

theorem collapseWs_length_le (l : List Char) : (collapseWs l).length ≤ l.length :=
  collapseWsAux_length_le false l

end MultiBot

namespace MultiBot

/-! ## Helper lemmas: `pyRfind` and slicing -/

theorem rfindAux_spec :
    ∀ (l : List Char) (c : Char) (i j : Nat), rfindAux l c i = some j →
      i ≤ j ∧ j - i < l.length ∧ l[j - i]? = some c := by
  intro l
  induction l with
  | nil => intro c i j h; simp [rfindAux] at h
  | cons x xs ih =>
    intro c i j h
    rw [rfindAux] at h
    cases haux : rfindAux xs c (i + 1) with
    | some j' =>
      rw [haux] at h
      have hj : j' = j := by simpa using h
      subst hj
      obtain ⟨h1, h2, h3⟩ := ih c (i + 1) j' haux
      refine ⟨by omega, by simp only [List.length_cons]; omega, ?_⟩
      have hix : j' - i = (j' - (i + 1)) + 1 := by omega
      rw [hix, List.getElem?_cons_succ]
      exact h3
    | none =>
      rw [haux] at h
      by_cases hx : x = c
      · rw [if_pos hx] at h
        have hij : i = j := by simpa using h
        subst hij
        refine ⟨Nat.le_refl _, by simp, ?_⟩
        rw [Nat.sub_self, List.getElem?_cons_zero, hx]
      · rw [if_neg hx] at h
        simp at h

theorem pyRfind_cases (l : List Char) (c : Char) :
    pyRfind l c = -1 ∨
      (0 ≤ pyRfind l c ∧ (pyRfind l c).toNat < l.length ∧
        l[(pyRfind l c).toNat]? = some c) := by
  unfold pyRfind
  cases h : rfindAux l c 0 with
  | none => left; rfl
  | some j =>
    right
    obtain ⟨_, h2, h3⟩ := rfindAux_spec l c 0 j h
    rw [Nat.sub_zero] at h2 h3
    refine ⟨Int.natCast_nonneg j, ?_, ?_⟩
    · rw [Int.toNat_natCast]; exact h2
    · rw [Int.toNat_natCast]; exact h3

theorem pyRfind_lt_length (l : List Char) (c : Char) :
    pyRfind l c < (l.length : Int) := by
  rcases pyRfind_cases l c with h | ⟨h0, h1, _⟩
  · rw [h]
    omega
  · omega

theorem getLast?_take_succ {l : List Char} {j : Nat} (hj : j < l.length) :
    (l.take (j + 1)).getLast? = l[j]? := by
  rw [List.getLast?_eq_getElem?]
  have hlen : (l.take (j + 1)).length = j + 1 := by
    rw [List.length_take]
    omega
  rw [hlen, Nat.add_sub_cancel, List.getElem?_take]
  rw [if_pos (by omega)]

theorem head?_take_pos {l : List Char} {n : Nat} (hn : 0 < n) :
    (l.take n).head? = l.head? := by
  cases l with
  | nil => simp
  | cons a t =>
    cases n with
    | zero => omega
    | succ m => rw [List.take_succ_cons, List.head?_cons, List.head?_cons]

theorem stop_not_space {c : Char} (h : c ∈ stopChars) : isPySpace c = false := by
  simp only [stopChars, List.mem_cons, List.not_mem_nil, or_false] at h
  rcases h with rfl | rfl | rfl | rfl <;> decide

theorem ellipsize_of_stop {cut : List Char} {c : Char}
    (h : cut.getLast? = some c) (hm : c ∈ stopChars) : ellipsize cut = cut := by
  unfold ellipsize
  rw [h]
  show (if c ∈ stopChars then cut else cut ++ ['.', '.', '.']) = cut
  rw [if_pos hm]

theorem ellipsize_of_not_stop {cut : List Char} {c : Char}
    (h : cut.getLast? = some c) (hm : c ∉ stopChars) :
    ellipsize cut = cut ++ ['.', '.', '.'] := by
  unfold ellipsize
  rw [h]
  show (if c ∈ stopChars then cut else cut ++ ['.', '.', '.']) = cut ++ ['.', '.', '.']
  rw [if_neg hm]

end MultiBot

namespace MultiBot

/-! ## The truncation branch of the normalizer -/

theorem truncate273_spec (t : List Char) (hlong : 273 < t.length)
    (hhead : ∃ c0 t0, t = c0 :: t0 ∧ isPySpace c0 = false) :
    (truncate273 t).length ≤ 275 ∧
      ∃ c ∈ stopChars, (truncate273 t).getLast? = some c := by
  obtain ⟨c0, t0, ht0, hc0⟩ := hhead
  unfold truncate273
  rw [if_pos hlong]
  set trimmed := t.take 273 with htr
  have htrlen : trimmed.length = 273 := by
    rw [htr, List.length_take]
    omega
  have htrhead : trimmed.head? = some c0 := by
    rw [htr, head?_take_pos (by omega), ht0, List.head?_cons]
  unfold cutAt
  by_cases hst : 200 < lastStopIdx trimmed
  · rw [if_pos hst]
    obtain ⟨ch, hchmem, hch⟩ :
        ∃ ch ∈ stopChars, pyRfind trimmed ch = lastStopIdx trimmed := by
      unfold lastStopIdx
      rcases max_choice (pyRfind trimmed '।')
          (max (pyRfind trimmed '.')
            (max (pyRfind trimmed '!') (pyRfind trimmed '?'))) with h1 | h1
      · exact ⟨'।', by simp [stopChars], h1.symm⟩
      · rcases max_choice (pyRfind trimmed '.')
            (max (pyRfind trimmed '!') (pyRfind trimmed '?')) with h2 | h2
        · exact ⟨'.', by simp [stopChars], by rw [h1, h2]⟩
        · rcases max_choice (pyRfind trimmed '!') (pyRfind trimmed '?') with h3 | h3
          · exact ⟨'!', by simp [stopChars], by rw [h1, h2, h3]⟩
          · exact ⟨'?', by simp [stopChars], by rw [h1, h2, h3]⟩
    rcases pyRfind_cases trimmed ch with hneg | ⟨hge, hlt, hget⟩
    · rw [hch] at hneg
      omega
    · set j := (pyRfind trimmed ch).toNat with hj
      have hslice : pySlice trimmed (lastStopIdx trimmed + 1) = trimmed.take (j + 1) := by
        unfold pySlice
        rw [if_neg (by omega)]
        congr 1
        rw [← hch]
        omega
      rw [hslice]
      have hlast : (trimmed.take (j + 1)).getLast? = some ch := by
        rw [getLast?_take_succ hlt]
        exact hget
      rw [ellipsize_of_stop hlast hchmem]
      constructor
      · rw [List.length_take]
        omega
      · exact ⟨ch, hchmem, hlast⟩
  · rw [if_neg hst]
    rcases pyRfind_cases trimmed ' ' with hneg | ⟨hge, hlt, hget⟩
    · have hslice : pySlice trimmed (pyRfind trimmed ' ') = trimmed.take 272 := by
        unfold pySlice
        rw [hneg, if_pos (by decide), htrlen]
        congr 1
      rw [hslice]
      have hcutlen : (trimmed.take 272).length = 272 := by
        rw [List.length_take]
        omega
      have hcne : trimmed.take 272 ≠ [] := by
        intro he
        rw [he] at hcutlen
        simp at hcutlen
      cases hgl : (trimmed.take 272).getLast? with
      | none => exact absurd (List.getLast?_eq_none_iff.mp hgl) hcne
      | some c1 =>
        by_cases hs : c1 ∈ stopChars
        · rw [ellipsize_of_stop hgl hs]
          exact ⟨by omega, c1, hs, hgl⟩
        · rw [ellipsize_of_not_stop hgl hs]
          constructor
          · rw [List.length_append, hcutlen]
            simp
          · refine ⟨'.', by simp [stopChars], ?_⟩
            rw [List.getLast?_append]
            rfl
    · set k := (pyRfind trimmed ' ').toNat with hk
      have hkpos : k ≠ 0 := by
        intro h0
        rw [h0] at hget
        rw [List.head?_eq_getElem? trimmed, hget] at htrhead
        have hcc : c0 = ' ' := by simpa using htrhead.symm
        rw [hcc] at hc0
        exact absurd hc0 (by decide)
      have hslice : pySlice trimmed (pyRfind trimmed ' ') = trimmed.take k := by
        unfold pySlice
        rw [if_neg (by omega)]
      rw [hslice]
      have hcutlen : (trimmed.take k).length = k := by
        rw [List.length_take]
        omega
      have hcne : trimmed.take k ≠ [] := by
        intro he
        rw [he] at hcutlen
        simp at hcutlen
        omega
      cases hgl : (trimmed.take k).getLast? with
      | none => exact absurd (List.getLast?_eq_none_iff.mp hgl) hcne
      | some c1 =>
        by_cases hs : c1 ∈ stopChars
        · rw [ellipsize_of_stop hgl hs]
          exact ⟨by omega, c1, hs, hgl⟩
        · rw [ellipsize_of_not_stop hgl hs]
          constructor
          · rw [List.length_append, hcutlen]
            simp
            omega
          · refine ⟨'.', by simp [stopChars], ?_⟩
            rw [List.getLast?_append]
            rfl

/-! ## Claim C2 -/

/-- Claim C2 as stated is false: on this 274-character input the cleaned
form exceeds 273 characters, yet the normalizer's output has 275
characters, exceeding the claimed bound of 274 (the cut at the last space
keeps 272 characters and the ellipsis marker adds three more). -/
theorem C2_cex :
    273 < (cleanedForm c2CexStr.data).length ∧ 274 < (clean_text c2CexStr).length := by
  decide

/-- Claim C2 (amended): for every input whose cleaned form exceeds 273
characters, the normalizer's output has length at most 275 (not 274: up to
272 retained characters plus the three-character ellipsis marker) and ends
in a sentence terminator — the Devanagari full stop, '.', '!' or '?', the
final character of the ellipsis marker included. -/
theorem C2_truncation_bound (s : String) (h : 273 < (cleanedForm s.data).length) :
    C2Spec s := by
  have hne : s.data ≠ [] := by
    intro he
    rw [he] at h
    exact absurd h (by decide)
  have hhead : ∃ c0 t0, cleanedForm s.data = c0 :: t0 ∧ isPySpace c0 = false := by
    rcases pyStrip_head_false (collapseWs (stripCitations s.data)) with h0 | ⟨c0, t0, hct, hc⟩
    · unfold cleanedForm at h
      rw [h0] at h
      simp at h
    · exact ⟨c0, t0, hct, hc⟩
  obtain ⟨hlen275, c, hcmem, hclast⟩ := truncate273_spec (cleanedForm s.data) h hhead
  constructor
  · show (cleanTextL s.data).length ≤ 275
    unfold cleanTextL
    rw [if_neg hne]
    exact le_trans (pyStrip_length_le _) hlen275
  · refine ⟨c, hcmem, ?_⟩
    show (cleanTextL s.data).getLast? = some c
    unfold cleanTextL
    rw [if_neg hne]
    exact pyStrip_getLast hclast (stop_not_space hcmem)

/-- Witness for C2: a concrete 280-character input satisfying the amended
claim's hypothesis and conclusion. -/
theorem C2_truncation_bound_witness : C2Spec c2WitStr :=
  C2_truncation_bound c2WitStr (by decide)

/-! ## Claim C9 -/

/-- Claim C9: for every input string with no citation markers and fewer
than 273 characters, the normalizer returns exactly the
whitespace-collapsed, end-trimmed input — no other change. -/
theorem C9_identity (s : String) (h1 : containsCite s.data = false)
    (h2 : s.data.length < 273) :
    clean_text s = ⟨pyStrip (collapseWs s.data)⟩ := by
  unfold clean_text cleanTextL
  by_cases hnil : s.data = []
  · rw [if_pos hnil, hnil]
    rfl
  · rw [if_neg hnil]
    have hsc : stripCitations s.data = s.data := stripCitations_of_not_containsCite h1
    have hlen : ¬ 273 < (cleanedForm s.data).length := by
      have h3 : (cleanedForm s.data).length ≤ s.data.length := by
        unfold cleanedForm
        rw [hsc]
        exact le_trans (pyStrip_length_le _) (collapseWs_length_le _)
      omega
    unfold truncate273
    rw [if_neg hlen]
    unfold cleanedForm
    rw [hsc, pyStrip_idem]

/-- Witness for C9: a concrete input with runs of spaces, a tab and a
non-citation bracket, on which the normalizer only collapses whitespace and
trims. -/
theorem C9_identity_witness :
    clean_text c9WitStr = ⟨pyStrip (collapseWs c9WitStr.data)⟩ :=
  C9_identity c9WitStr (by decide) (by decide)

end MultiBot

namespace MultiBot

/-! ## Claim C1 -/

/-- Claim C1 as stated is false: in dry-run mode with media attachment
enabled and an image selected, a pair with non-empty commentary still
returns success, but the media-upload backend IS called — in
`post_reply_with_account` the upload precedes the dry-run short-circuit. -/
theorem C1_cex :
    (post_reply_with_account beOk true (some "img.jpg") "t1" "hi" "Account_1" []).1 = true ∧
    (post_reply_with_account beOk true (some "img.jpg") "t1" "hi" "Account_1" []).2.1 =
      [.upload "img.jpg"] := by
  decide

/-- Claim C1 (amended): in dry-run mode a pair with non-empty commentary
returns success (so the run's success counter is incremented) and no reply
creation ever occurs; when no media image is selected no backend call at
all is made, while a selected image is still uploaded before the dry-run
short-circuit.  The run log is untouched. -/
theorem C1_dry_run (be : Backend) (tweet_id reply_text account_name : String)
    (logs : List LogEntry) (h : reply_text ≠ "") :
    C1Spec be tweet_id reply_text account_name logs := by
  constructor
  · simp [post_reply_with_account, h]
  · intro path mid hup
    simp [post_reply_with_account, h, hup]

/-- Witness for C1 (amended) at a concrete backend and pair. -/
theorem C1_dry_run_witness : C1Spec beOk "t1" "hi" "Account_1" [] :=
  C1_dry_run beOk "t1" "hi" "Account_1" [] (by decide)

/-! ## Claim C10 -/

/-- Claim C10: a dry-run dispatch appends no run-log entry; for any mode the
log either stays unchanged or — only on the real (non-dry) path with a
successful reply creation — grows by exactly the `reply_sent` entry. -/
theorem C10_log_only_real :
    ∀ (be : Backend) (img : Option String) (tid rt an : String) (logs : List LogEntry),
      (post_reply_with_account be true img tid rt an logs).2.2 = logs ∧
      ∀ dr : Bool, (post_reply_with_account be dr img tid rt an logs).2.2 = logs ∨
        ∃ rid, dr = false ∧ be.createResult rt tid = some rid ∧
          (post_reply_with_account be dr img tid rt an logs).1 = true ∧
          (post_reply_with_account be dr img tid rt an logs).2.2 =
            logs ++ [mkLogEntry an tid rid img rt] := by
  intro be img tid rt an logs
  have key : ∀ dr : Bool, (post_reply_with_account be dr img tid rt an logs).2.2 = logs ∨
      ∃ rid, dr = false ∧ be.createResult rt tid = some rid ∧
        (post_reply_with_account be dr img tid rt an logs).1 = true ∧
        (post_reply_with_account be dr img tid rt an logs).2.2 =
          logs ++ [mkLogEntry an tid rid img rt] := by
    intro dr
    by_cases h : rt = ""
    · left
      simp [post_reply_with_account, h]
    · cases img with
      | none =>
        cases dr with
        | true =>
          left
          simp [post_reply_with_account, h]
        | false =>
          cases hcr : be.createResult rt tid with
          | none =>
            left
            simp [post_reply_with_account, h, hcr]
          | some rid =>
            right
            exact ⟨rid, rfl, rfl, by simp [post_reply_with_account, h, hcr],
              by simp [post_reply_with_account, h, hcr]⟩
      | some path =>
        cases hup : be.uploadResult path with
        | none =>
          left
          simp [post_reply_with_account, h, hup]
        | some mid =>
          cases dr with
          | true =>
            left
            simp [post_reply_with_account, h, hup]
          | false =>
            cases hcr : be.createResult rt tid with
            | none =>
              left
              simp [post_reply_with_account, h, hup, hcr]
            | some rid =>
              right
              exact ⟨rid, rfl, rfl, by simp [post_reply_with_account, h, hup, hcr],
                by simp [post_reply_with_account, h, hup, hcr]⟩
  constructor
  · rcases key true with h1 | ⟨rid, habs, _⟩
    · exact h1
    · exact Bool.noConfusion habs
  · exact key

/-! ## Claim C5 -/

theorem updateAcc_eq (a e : Account) : updateAcc a e = e := rfl

theorem merge_key_one {e : Account} {k : String} (he : e.api_key = some k) :
    ∀ cfg : List Account, keyCount cfg k = 1 →
      (mergeEnvAcc cfg e).length = cfg.length ∧
      (mergeEnvAcc cfg e).filter (fun a => decide (a.api_key = some k)) = [e] := by
  intro cfg
  induction cfg with
  | nil => intro h; simp [keyCount] at h
  | cons a rest ih =>
    intro h
    unfold keyCount at h
    rw [List.filter_cons] at h
    by_cases hm : a.api_key = e.api_key
    · have hak : decide (a.api_key = some k) = true := by
        rw [hm, he]
        simp
      rw [hak] at h
      simp only [if_true, List.length_cons] at h
      have hrest : rest.filter (fun x => decide (x.api_key = some k)) = [] :=
        List.length_eq_zero.mp (by omega)
      unfold mergeEnvAcc
      rw [if_pos hm]
      refine ⟨by simp, ?_⟩
      rw [List.filter_cons, updateAcc_eq]
      have hek : decide (e.api_key = some k) = true := by simp [he]
      rw [hek]
      simp only [if_true]
      rw [hrest]
    · have hak : decide (a.api_key = some k) = false := by
        simp only [decide_eq_false_iff_not]
        intro hkk
        exact hm (by rw [hkk, he])
      rw [hak] at h
      simp only [Bool.false_eq_true, if_false] at h
      obtain ⟨ihl, ihf⟩ := ih h
      unfold mergeEnvAcc
      rw [if_neg hm]
      refine ⟨by simp [ihl], ?_⟩
      rw [List.filter_cons, hak]
      simp only [Bool.false_eq_true, if_false]
      exact ihf

theorem merge_key_zero {e : Account} {k : String} (he : e.api_key = some k) :
    ∀ cfg : List Account, keyCount cfg k = 0 → mergeEnvAcc cfg e = cfg ++ [e] := by
  intro cfg
  induction cfg with
  | nil => intro _; rfl
  | cons a rest ih =>
    intro h
    unfold keyCount at h
    rw [List.filter_cons] at h
    cases hak : decide (a.api_key = some k) with
    | true =>
      rw [hak] at h
      simp at h
    | false =>
      rw [hak] at h
      simp only [Bool.false_eq_true, if_false] at h
      have hm : ¬ a.api_key = e.api_key := by
        intro hmm
        rw [decide_eq_false_iff_not] at hak
        exact hak (by rw [hmm, he])
      unfold mergeEnvAcc
      rw [if_neg hm, ih h]
      rfl

/-- Claim C5 as stated is false in two ways: with two config records
sharing key `K1` the merged pool holds two entries for that key, and with
eleven config records whose `K1` entry lies beyond the 10-entry cap the
pool holds none. -/
theorem C5_cex :
    keyCount (load_accounts c5CfgDup [c5Env]) "K1" = 2 ∧
    keyCount (load_accounts c5Cfg11 [c5Env]) "K1" = 0 := by
  decide

/-- Claim C5 (amended): the pool is the merged list capped at 10 preserving
order; provided the config list holds exactly one record with the
override's key and at most 10 records, the pool holds exactly one entry for
that key, namely the override's full record (Python's `dict.update`
replaces every credential field), at the matched position; an override with
no matching key is appended. -/
theorem C5_merge (cfg : List Account) (e : Account) (k : String)
    (he : e.api_key = some k) : C5Spec cfg e k := by
  refine ⟨rfl, ?_, ?_⟩
  · rintro ⟨h1, h2⟩
    obtain ⟨hlen, hfil⟩ := merge_key_one he cfg h1
    have htake : (mergeEnvAcc cfg e).take 10 = mergeEnvAcc cfg e :=
      List.take_of_length_le (by omega)
    constructor
    · show ((List.foldl mergeEnvAcc cfg [e]).take 10).filter _ = [e]
      show ((mergeEnvAcc cfg e).take 10).filter _ = [e]
      rw [htake]
      exact hfil
    · show ((mergeEnvAcc cfg e).take 10).length = cfg.length
      rw [htake]
      exact hlen
  · intro h0
    exact merge_key_zero he cfg h0

/-- Witness for C5 (amended) at a concrete two-record config. -/
theorem C5_merge_witness : C5Spec c5CfgWit c5Env "K1" :=
  C5_merge c5CfgWit c5Env "K1" (by decide)

/-! ## Claim C4 -/

/-- Claim C4 as stated is false: on a profile list with thirty identical
entries, the draw consisting of all thirty entries is a valid
without-replacement sample (`random.sample` draws distinct positions, not
distinct values), yet the returned profiles are not distinct. -/
theorem C4_cex :
    validDraw repA [] repA ∧ ¬ (select_profiles repA [] repA).1.Nodup := by
  refine ⟨⟨by decide, ?_⟩, by decide⟩
  have hc : selectCandidates repA [] = repA := by decide
  rw [hc]

/-- Claim C4 (amended): for every pairwise-distinct profile list of size at
least the quota and empty recent memory, any valid draw consists of exactly
`PROFILES_PER_RUN` distinct profiles from the list, and the persisted
memory is the draw itself, newest first, truncated to `RECENT_MEMORY`. -/
theorem C4_rotator (all_profiles sel : List String)
    (hnd : all_profiles.Nodup) (hlen : PROFILES_PER_RUN ≤ all_profiles.length)
    (hdraw : validDraw all_profiles [] sel) : C4Spec all_profiles sel := by
  obtain ⟨hslen, hsub⟩ := hdraw
  have hcand : selectCandidates all_profiles [] = all_profiles := by
    unfold selectCandidates
    have hf : all_profiles.filter (fun p => decide (p ∉ ([] : List String))) =
        all_profiles := by
      apply List.filter_eq_self.mpr
      intro a _
      simp
    rw [hf, if_neg (by omega)]
  rw [hcand] at hsub
  have hnum : numToSelect all_profiles [] = PROFILES_PER_RUN := by
    unfold numToSelect
    rw [hcand]
    omega
  refine ⟨?_, ?_, ?_, ?_⟩
  · show sel.length = PROFILES_PER_RUN
    rw [hslen, hnum]
  · show sel.Nodup
    obtain ⟨m, hp, hs⟩ := hsub
    exact hp.nodup_iff.mp (hnd.sublist hs)
  · intro p hp
    exact hsub.subset hp
  · show (sel ++ []).take RECENT_MEMORY = sel.take RECENT_MEMORY
    rw [List.append_nil]

/-- Witness for C4 (amended) at thirty distinct profiles, drawing all of
them. -/
theorem C4_rotator_witness : C4Spec p30 p30 :=
  C4_rotator p30 p30 (by decide) (by decide)
    ⟨by decide, by
      rw [show selectCandidates p30 [] = p30 by decide]⟩

end MultiBot

namespace MultiBot

/-! ## Claim C6 -/

/-- Claim C6: the commentary generator never raises — every outcome is the
empty string or the normalizer applied to the stripped completion content.
Empty input, a falsy API key (missing or empty), a transport exception, a
non-200 status and a malformed body each yield the empty string; a
successful 200 response yields `clean_text` of the stripped content; and
the request prompt embeds exactly the input truncated to 500 characters, so
it depends only on those. -/
theorem C6_generator :
    (∀ t key resp, fetch_perplexity_analysis t key resp = "" ∨
      ∃ body, resp = .http 200 (some body) ∧
        fetch_perplexity_analysis t key resp = clean_text ⟨pyStrip body.data⟩) ∧
    (∀ t key, fetch_perplexity_analysis t key .exn = "") ∧
    (∀ t resp, fetch_perplexity_analysis t none resp = "") ∧
    (∀ key resp, fetch_perplexity_analysis "" key resp = "") ∧
    (∀ t key s c, fetch_perplexity_analysis t (some key) (.http s c) =
      if t = "" then ""
      else if key = "" then ""
      else if s = 200 then
        match c with
        | some body => clean_text ⟨pyStrip body.data⟩
        | none => ""
      else "") ∧
    (∀ t, perpPrompt t = perpPrompt ⟨t.data.take 500⟩) := by
  refine ⟨?_, ?_, ?_, ?_, ?_, ?_⟩
  · intro t key resp
    by_cases ht : t = ""
    · left
      simp [fetch_perplexity_analysis, ht]
    · cases key with
      | none =>
        left
        simp [fetch_perplexity_analysis, ht]
      | some k =>
        by_cases hk : k = ""
        · left
          simp [fetch_perplexity_analysis, ht, hk]
        · cases resp with
          | exn =>
            left
            simp [fetch_perplexity_analysis, ht, hk]
          | http s c =>
            by_cases hs : s = 200
            · cases c with
              | none =>
                left
                simp [fetch_perplexity_analysis, ht, hk, hs]
              | some body =>
                right
                exact ⟨body, by rw [hs],
                  by simp [fetch_perplexity_analysis, ht, hk, hs]⟩
            · left
              simp [fetch_perplexity_analysis, ht, hk, hs]
  · intro t key
    by_cases ht : t = ""
    · simp [fetch_perplexity_analysis, ht]
    · cases key with
      | none => simp [fetch_perplexity_analysis, ht]
      | some k =>
        by_cases hk : k = ""
        · simp [fetch_perplexity_analysis, ht, hk]
        · simp [fetch_perplexity_analysis, ht, hk]
  · intro t resp
    by_cases ht : t = ""
    · simp [fetch_perplexity_analysis, ht]
    · simp [fetch_perplexity_analysis, ht]
  · intro key resp
    simp [fetch_perplexity_analysis]
  · intro t key s c
    by_cases ht : t = ""
    · simp [fetch_perplexity_analysis, ht]
    · rw [if_neg ht]
      by_cases hk : key = ""
      · simp [fetch_perplexity_analysis, ht, hk]
      · rw [if_neg hk]
        by_cases hs : s = 200
        · rw [if_pos hs]
          cases c with
          | none => simp [fetch_perplexity_analysis, ht, hk, hs]
          | some body => simp [fetch_perplexity_analysis, ht, hk, hs]
        · rw [if_neg hs]
          simp [fetch_perplexity_analysis, ht, hk, hs]
  · intro t
    unfold perpPrompt
    have hx : ((⟨t.data.take 500⟩ : String)).data.take 500 = t.data.take 500 := by
      show (t.data.take 500).take 500 = t.data.take 500
      rw [List.take_take, Nat.min_self]
    rw [hx]

/-! ## Claim C3 -/

theorem retain_sublist : ∀ (items : List FetchItem) (seen : List String),
    List.Sublist (retainPosts items seen) items := by
  intro items
  induction items with
  | nil =>
    intro seen
    simp [retainPosts]
  | cons it its ih =>
    intro seen
    rw [retainPosts]
    by_cases h1 : itemText it = ""
    · rw [if_pos h1]
      exact (ih seen).cons it
    · rw [if_neg h1]
      by_cases h2 : it.profileUrl ∈ seen
      · rw [if_pos h2]
        exact (ih seen).cons it
      · rw [if_neg h2]
        exact (ih _).cons₂ it

theorem retain_notin_seen : ∀ (items : List FetchItem) (seen : List String),
    ∀ x ∈ retainPosts items seen, x.profileUrl ∉ seen := by
  intro items
  induction items with
  | nil =>
    intro seen x hx
    simp [retainPosts] at hx
  | cons it its ih =>
    intro seen x hx
    rw [retainPosts] at hx
    by_cases h1 : itemText it = ""
    · rw [if_pos h1] at hx
      exact ih seen x hx
    · rw [if_neg h1] at hx
      by_cases h2 : it.profileUrl ∈ seen
      · rw [if_pos h2] at hx
        exact ih seen x hx
      · rw [if_neg h2] at hx
        rcases List.mem_cons.mp hx with rfl | hx'
        · exact h2
        · have hnx := ih _ x hx'
          intro hmem
          exact hnx (List.mem_cons_of_mem _ hmem)

theorem retain_profile_pairwise : ∀ (items : List FetchItem) (seen : List String),
    (retainPosts items seen).Pairwise (fun a b => a.profileUrl ≠ b.profileUrl) := by
  intro items
  induction items with
  | nil =>
    intro seen
    simp [retainPosts]
  | cons it its ih =>
    intro seen
    rw [retainPosts]
    by_cases h1 : itemText it = ""
    · rw [if_pos h1]
      exact ih seen
    · rw [if_neg h1]
      by_cases h2 : it.profileUrl ∈ seen
      · rw [if_pos h2]
        exact ih seen
      · rw [if_neg h2]
        refine List.Pairwise.cons ?_ (ih _)
        intro b hb he
        have hnot := retain_notin_seen its (it.profileUrl :: seen) b hb
        apply hnot
        rw [← he]
        exact List.mem_cons_self _ _

/-- Claim C3 as stated is false: these items have pairwise-distinct
timestamps and span ten profiles, but the single item of profile `p10` has
empty text, so after the empty-text discard only nine posts remain and the
fetcher returns nine, not ten. -/
theorem C3_cex :
    c3CexItems.Pairwise (fun a b => a.timestamp ≠ b.timestamp) ∧
    10 ≤ ((c3CexItems.map FetchItem.profileUrl).dedup).length ∧
    (fetch_tweets c3CexItems).length ≠ REPLIES_TO_PROCESS := by
  decide

/-- Claim C3 (amended): for items with pairwise-distinct timestamps such
that at least ten profiles survive the empty-text discard and the
one-per-profile cap, the fetcher returns exactly the ten highest-timestamp
retained posts, sorted strictly descending by timestamp, each from a
distinct profile. -/
theorem C3_top10 (items : List FetchItem)
    (hts : items.Pairwise fun a b => a.timestamp ≠ b.timestamp)
    (hn : REPLIES_TO_PROCESS ≤ (retainPosts items []).length) : C3Spec items := by
  have hperm : ((retainPosts items []).insertionSort tsGE).Perm (retainPosts items []) :=
    List.perm_insertionSort tsGE _
  have hsorted : ((retainPosts items []).insertionSort tsGE).Pairwise tsGE :=
    List.sorted_insertionSort tsGE _
  have hts1 : (retainPosts items []).Pairwise (fun a b => a.timestamp ≠ b.timestamp) :=
    List.Pairwise.sublist (retain_sublist items []) hts
  have hsym : Symmetric (fun a b : FetchItem => a.timestamp ≠ b.timestamp) :=
    fun a b h hh => h hh.symm
  have hts2 : ((retainPosts items []).insertionSort tsGE).Pairwise
      (fun a b => a.timestamp ≠ b.timestamp) :=
    (hperm.pairwise_iff @hsym).mpr hts1
  have hstrict : ((retainPosts items []).insertionSort tsGE).Pairwise
      (fun a b => b.timestamp < a.timestamp) := by
    refine (hsorted.and hts2).imp ?_
    intro a b hab
    exact lt_of_le_of_ne hab.1 fun hh => hab.2 hh.symm
  have hsymp : Symmetric (fun a b : FetchItem => a.profileUrl ≠ b.profileUrl) :=
    fun a b h hh => h hh.symm
  have hprof : ((retainPosts items []).insertionSort tsGE).Pairwise
      (fun a b => a.profileUrl ≠ b.profileUrl) :=
    (hperm.pairwise_iff @hsymp).mpr (retain_profile_pairwise items [])
  have hlen : ((retainPosts items []).insertionSort tsGE).length =
      (retainPosts items []).length := hperm.length_eq
  refine ⟨?_, ?_, ?_, ?_, ?_⟩
  · show (((retainPosts items []).insertionSort tsGE).take REPLIES_TO_PROCESS).length = _
    rw [List.length_take, hlen]
    exact Nat.min_eq_left hn
  · exact List.Pairwise.sublist (List.take_sublist _ _) hstrict
  · exact List.Pairwise.sublist (List.take_sublist _ _) hprof
  · intro x hx
    exact hperm.mem_iff.mp (List.take_subset _ _ hx)
  · intro y hy hyn x hx
    have hysorted : y ∈ (retainPosts items []).insertionSort tsGE :=
      hperm.mem_iff.mpr hy
    have hsplit := List.take_append_drop REPLIES_TO_PROCESS
      ((retainPosts items []).insertionSort tsGE)
    have hstrict2 : (((retainPosts items []).insertionSort tsGE).take REPLIES_TO_PROCESS ++
        ((retainPosts items []).insertionSort tsGE).drop REPLIES_TO_PROCESS).Pairwise
        (fun a b => b.timestamp < a.timestamp) := by
      rw [hsplit]
      exact hstrict
    have hcross := (List.pairwise_append.mp hstrict2).2.2
    have hydrop : y ∈ ((retainPosts items []).insertionSort tsGE).drop
        REPLIES_TO_PROCESS := by
      have hymem : y ∈ ((retainPosts items []).insertionSort tsGE).take REPLIES_TO_PROCESS ++
          ((retainPosts items []).insertionSort tsGE).drop REPLIES_TO_PROCESS := by
        rw [hsplit]
        exact hysorted
      rcases List.mem_append.mp hymem with h1 | h1
      · exact absurd h1 hyn
      · exact h1
    exact hcross x hx y hydrop

/-- Witness for C3 (amended): twelve concrete items (one with empty text,
one a second post of an already-seen profile) from which the ten freshest
retained posts are returned. -/
theorem C3_top10_witness : C3Spec c3WitItems :=
  C3_top10 c3WitItems (by decide) (by decide)

end MultiBot

namespace MultiBot

/-! ## Claims C7 and C8: the dispatch loop -/

theorem Attempt_ok_mk (i a : Nat) (c : List BackendCall) (b : Bool) :
    Attempt.ok ⟨i, a, c, b⟩ = b := rfl

theorem dispatchLoop_spec (be : Backend) (dryRun : Bool) (image : Nat → Option String)
    (n : Nat) :
    ∀ (tasks : List ReplyTask) (i : Nat) (logs : List LogEntry),
      (∀ a ∈ (dispatchLoop be dryRun image n tasks i logs).1, a.account = a.idx % n) ∧
      ((dispatchLoop be dryRun image n tasks i logs).1.map Attempt.idx =
        ((tasks.enumFrom i).filter fun p => decide (p.2.reply_text ≠ "")).map Prod.fst) ∧
      ((dispatchLoop be dryRun image n tasks i logs).2.1 =
        ((dispatchLoop be dryRun image n tasks i logs).1.filter Attempt.ok).length) := by
  intro tasks
  induction tasks with
  | nil =>
    intro i logs
    refine ⟨?_, ?_, ?_⟩ <;> simp [dispatchLoop]
  | cons t ts ih =>
    intro i logs
    by_cases hr : t.reply_text = ""
    · have hstep : dispatchLoop be dryRun image n (t :: ts) i logs =
          dispatchLoop be dryRun image n ts (i + 1) logs := by
        rw [dispatchLoop, if_pos hr]
      obtain ⟨h1, h2, h3⟩ := ih (i + 1) logs
      rw [hstep]
      refine ⟨h1, ?_, h3⟩
      rw [h2, List.enumFrom_cons, List.filter_cons]
      rw [show (decide ((i, t).2.reply_text ≠ "")) = false by simp [hr]]
      simp only [Bool.false_eq_true, if_false]
    · obtain ⟨h1, h2, h3⟩ := ih (i + 1)
        (post_reply_with_account be dryRun (image i) t.id t.reply_text
          (accountName (i % n)) logs).2.2
      have hstep : dispatchLoop be dryRun image n (t :: ts) i logs =
          (⟨i, i % n,
             (post_reply_with_account be dryRun (image i) t.id t.reply_text
               (accountName (i % n)) logs).2.1,
             (post_reply_with_account be dryRun (image i) t.id t.reply_text
               (accountName (i % n)) logs).1⟩ ::
           (dispatchLoop be dryRun image n ts (i + 1)
             (post_reply_with_account be dryRun (image i) t.id t.reply_text
               (accountName (i % n)) logs).2.2).1,
           (if (post_reply_with_account be dryRun (image i) t.id t.reply_text
               (accountName (i % n)) logs).1 then 1 else 0) +
           (dispatchLoop be dryRun image n ts (i + 1)
             (post_reply_with_account be dryRun (image i) t.id t.reply_text
               (accountName (i % n)) logs).2.2).2.1,
           (dispatchLoop be dryRun image n ts (i + 1)
             (post_reply_with_account be dryRun (image i) t.id t.reply_text
               (accountName (i % n)) logs).2.2).2.2) := by
        rw [dispatchLoop, if_neg hr]
      rw [hstep]
      refine ⟨?_, ?_, ?_⟩
      · intro a ha
        rcases List.mem_cons.mp ha with rfl | ha'
        · rfl
        · exact h1 a ha'
      · simp only [List.map_cons]
        rw [h2, List.enumFrom_cons, List.filter_cons]
        rw [show (decide ((i, t).2.reply_text ≠ "")) = true by simp [hr]]
        simp only [if_true, List.map_cons]
      · rw [List.filter_cons, Attempt_ok_mk]
        cases hok : (post_reply_with_account be dryRun (image i) t.id t.reply_text
            (accountName (i % n)) logs).1 with
        | true =>
          simp only [eq_self_iff_true, if_true, List.length_cons]
          rw [h3]
          omega
        | false =>
          simp only [if_neg (by decide : ¬ false = true)]
          rw [h3]
          omega

theorem dispatchLoop_length_le (be : Backend) (dryRun : Bool)
    (image : Nat → Option String) (n : Nat) (tasks : List ReplyTask) (i : Nat)
    (logs : List LogEntry) :
    (dispatchLoop be dryRun image n tasks i logs).1.length ≤ tasks.length := by
  obtain ⟨_, h2, _⟩ := dispatchLoop_spec be dryRun image n tasks i logs
  have hmap := congrArg List.length h2
  rw [List.length_map, List.length_map] at hmap
  calc (dispatchLoop be dryRun image n tasks i logs).1.length
      = ((tasks.enumFrom i).filter fun p => decide (p.2.reply_text ≠ "")).length := hmap
    _ ≤ (tasks.enumFrom i).length := List.length_filter_le _ _
    _ = tasks.length := List.enumFrom_length

theorem dispatchLoop_idx_lt (be : Backend) (dryRun : Bool)
    (image : Nat → Option String) (n : Nat) (tasks : List ReplyTask) (i : Nat)
    (logs : List LogEntry) :
    ∀ a ∈ (dispatchLoop be dryRun image n tasks i logs).1, a.idx < i + tasks.length := by
  intro a ha
  obtain ⟨_, h2, _⟩ := dispatchLoop_spec be dryRun image n tasks i logs
  have hmem : a.idx ∈ (dispatchLoop be dryRun image n tasks i logs).1.map Attempt.idx :=
    List.mem_map_of_mem _ ha
  rw [h2] at hmem
  obtain ⟨p, hp, hfst⟩ := List.mem_map.mp hmem
  have hp2 : p ∈ tasks.enumFrom i := List.mem_of_mem_filter hp
  obtain ⟨j, x⟩ := p
  have hb := List.mem_enumFrom hp2
  have hj : j = a.idx := hfst
  omega

/-- Claim C7: in the dispatch loop of `fetch_and_reply`, the pair at
position `idx` is published through account `clients[idx % len(clients)]`;
a pair with empty commentary is skipped before any delay or publish call
(no attempt record) yet still occupies its round-robin position; and the
success counter counts exactly the successful attempts. -/
theorem C7_round_robin (be : Backend) (dryRun : Bool) (image : Nat → Option String)
    (n : Nat) (gen : String → String) (fetched : List ReplyTask)
    (logs : List LogEntry) : C7Spec be dryRun image n gen fetched logs := by
  obtain ⟨h1, h2, h3⟩ :=
    dispatchLoop_spec be dryRun image n (annotateReplies gen fetched) 0 logs
  exact ⟨h1, h2, h3⟩

/-- Witness for C7 at a concrete four-post sequence (the second post's
generated commentary is empty) over a three-account pool. -/
theorem C7_round_robin_witness : C7Spec beOk true noImage 3 genWit tasksWit [] :=
  C7_round_robin beOk true noImage 3 genWit tasksWit []

/-- Claim C8: a `queue_reply` run leaves the persisted queue file unchanged
(the function never writes it), dispatches at most pool-size items — never
more than the queue holds — only at positions below the pool size, and
counts at most that many successes. -/
theorem C8_queue (be : Backend) (dryRun : Bool) (image : Nat → Option String)
    (n : Nat) (gen : String → String) (shuffled : List ReplyTask) (files : Files)
    (hperm : shuffled.Perm (flattenQueue files.reply_queue)) :
    C8Spec be dryRun image n gen shuffled files := by
  by_cases hq : files.reply_queue = []
  · have hrun : queue_reply be dryRun image n gen shuffled files = ([], 0, files) := by
      rw [queue_reply, if_pos hq]
    refine ⟨?_, ?_, ?_, ?_, ?_⟩ <;> simp [hrun]
  · have hrun : queue_reply be dryRun image n gen shuffled files =
        ((dispatchLoop be dryRun image n ((annotateReplies gen shuffled).take n) 0
            files.bot_logs).1,
          (dispatchLoop be dryRun image n ((annotateReplies gen shuffled).take n) 0
            files.bot_logs).2.1,
          { files with bot_logs := (dispatchLoop be dryRun image n
              ((annotateReplies gen shuffled).take n) 0 files.bot_logs).2.2 }) := by
      rw [queue_reply, if_neg hq]
    obtain ⟨_, _, h3⟩ := dispatchLoop_spec be dryRun image n
      ((annotateReplies gen shuffled).take n) 0 files.bot_logs
    have hlen : (dispatchLoop be dryRun image n ((annotateReplies gen shuffled).take n) 0
        files.bot_logs).1.length ≤ ((annotateReplies gen shuffled).take n).length :=
      dispatchLoop_length_le be dryRun image n _ 0 files.bot_logs
    have htl : ((annotateReplies gen shuffled).take n).length ≤ n := by
      rw [List.length_take]
      omega
    have hsl : ((annotateReplies gen shuffled).take n).length ≤
        (flattenQueue files.reply_queue).length := by
      rw [List.length_take]
      have h4 : (annotateReplies gen shuffled).length = shuffled.length :=
        List.length_map _ _
      have h5 := hperm.length_eq
      omega
    refine ⟨?_, ?_, ?_, ?_, ?_⟩
    · rw [hrun]
    · simp only [hrun]
      omega
    · simp only [hrun]
      omega
    · intro a ha
      simp only [hrun] at ha
      have hax := dispatchLoop_idx_lt be dryRun image n _ 0 files.bot_logs a ha
      omega
    · simp only [hrun]
      rw [h3]
      exact List.length_filter_le _ _

/-- Witness for C8 at a concrete three-item queue over two profiles,
dispatched against a two-account pool. -/
theorem C8_queue_witness : C8Spec beOk false noImage 2 genC8 shuffledWit filesWit :=
  C8_queue beOk false noImage 2 genC8 shuffledWit filesWit (by decide)

end MultiBot
